import Mathlib

/-!
Shallow embedding of the Employee Management System reporting core
(`database.py`, `init_db.py`, and the top-earners selection in `app.py`).

The three base relations are lists of records, mirroring the sqlite schema
created by `init_db.py`.  SQL REAL columns are modelled as rationals.
SQL NULL is modelled by `Option`.  Each query function of `database.py` is
translated clause by clause: joins become explicit list joins, `GROUP BY`
becomes grouping by a key in first-occurrence order, and `ORDER BY` becomes
a stable insertion sort on the order-by key (ties keep the pre-sort row
order, which is the nested-loop join order of the FROM clause).
-/

namespace EMS

/-- Row of the `department` table (`init_db.py`): id, name, location. -/
structure Department where
  department_id : Int
  department_name : String
  location : String
deriving DecidableEq

/-- Row of the `employee` table (`init_db.py`); `department_id` is nullable. -/
structure Employee where
  employee_id : Int
  first_name : String
  last_name : String
  email : String
  hire_date : String
  department_id : Option Int
deriving DecidableEq

/-- Row of the `salary` table (`init_db.py`); REAL amounts modelled as `ℚ`. -/
structure Salary where
  salary_id : Int
  employee_id : Int
  base_salary : ℚ
  bonus : ℚ
  effective_date : String
deriving DecidableEq

/-- The database: the three base relations, in their stored row order. -/
structure DB where
  department : List Department
  employee : List Employee
  salary : List Salary
deriving DecidableEq

/-- The rows a single left-side element `a` contributes to a left join:
all matches, or a single null-extended row when there is no match. -/
def joinBlock (a : α) (r : List β) (p : α → β → Bool) : List (α × Option β) :=
  if (r.filter (p a)).isEmpty then [(a, none)]
  else (r.filter (p a)).map (fun b => (a, some b))

/-- SQL LEFT JOIN of `l` against `r` on condition `p`, in nested-loop order. -/
def leftJoin (l : List α) (r : List β) (p : α → β → Bool) : List (α × Option β) :=
  l.flatMap (fun a => joinBlock a r p)

/-- SQL inner JOIN of `l` against `r` on condition `p`, in nested-loop order. -/
def innerJoin (l : List α) (r : List β) (p : α → β → Bool) : List (α × β) :=
  l.flatMap (fun a => (r.filter (p a)).map (fun b => (a, b)))

/-- Distinct keys of `l` in first-occurrence order (fuelled so that it is
structurally recursive); used to model SQL GROUP BY output groups. -/
def groupKeysAux [DecidableEq κ] (key : α → κ) : Nat → List α → List κ
  | _, [] => []
  | 0, _ :: _ => []
  | n + 1, a :: l =>
      key a :: groupKeysAux key n (l.filter (fun b => decide (key b ≠ key a)))

/-- Distinct keys of `l` in first-occurrence order. -/
def groupKeys [DecidableEq κ] (key : α → κ) (l : List α) : List κ :=
  groupKeysAux key l.length l

/-- SQLite `ROUND(x, 2)`. -/
def round2 (q : ℚ) : ℚ := ((round (q * 100) : ℤ) : ℚ) / 100

/-- Row shape of `get_all_employees`: employee columns plus the left-joined
department columns (null when the employee has no department). -/
structure EmployeeRow where
  employee_id : Int
  first_name : String
  last_name : String
  email : String
  hire_date : String
  department_name : Option String
  location : Option String
deriving DecidableEq

/-- `ORDER BY e.employee_id` for the employee roster. -/
def empOrd : EmployeeRow → EmployeeRow → Prop :=
  fun a b => a.employee_id ≤ b.employee_id

instance : DecidableRel empOrd :=
  fun a b => inferInstanceAs (Decidable (a.employee_id ≤ b.employee_id))

/-- `get_all_employees` (database.py lines 16-34): employee LEFT JOIN
department, ordered by employee id. -/
def get_all_employees (db : DB) : List EmployeeRow :=
  List.insertionSort empOrd
    ((leftJoin db.employee db.department
        (fun e d => e.department_id == some d.department_id)).map
      (fun r =>
        { employee_id := r.1.employee_id
          first_name := r.1.first_name
          last_name := r.1.last_name
          email := r.1.email
          hire_date := r.1.hire_date
          department_name := r.2.map (fun d => d.department_name)
          location := r.2.map (fun d => d.location) }))

/-- Row shape of `get_all_salaries`: salary columns, the computed
`total_compensation`, and left-joined department name. -/
structure SalaryRow where
  employee_id : Int
  employee_name : String
  base_salary : ℚ
  bonus : ℚ
  total_compensation : ℚ
  effective_date : String
  department_name : Option String
deriving DecidableEq

/-- The FROM clause of `get_all_salaries`: salary JOIN employee LEFT JOIN
department, with the SELECT list applied, before ORDER BY. -/
def salaryJoinRows (db : DB) : List SalaryRow :=
  (leftJoin (innerJoin db.salary db.employee (fun s e => s.employee_id == e.employee_id))
      db.department (fun se d => se.2.department_id == some d.department_id)).map
    (fun r =>
      { employee_id := r.1.2.employee_id
        employee_name := r.1.2.first_name ++ " " ++ r.1.2.last_name
        base_salary := r.1.1.base_salary
        bonus := r.1.1.bonus
        total_compensation := r.1.1.base_salary + r.1.1.bonus
        effective_date := r.1.1.effective_date
        department_name := r.2.map (fun d => d.department_name) })

/-- `ORDER BY total_compensation DESC`. -/
def salOrd : SalaryRow → SalaryRow → Prop :=
  fun a b => b.total_compensation ≤ a.total_compensation

instance : DecidableRel salOrd :=
  fun a b => inferInstanceAs (Decidable (b.total_compensation ≤ a.total_compensation))

instance : IsTotal SalaryRow salOrd :=
  ⟨fun a b => le_total b.total_compensation a.total_compensation⟩

instance : IsTrans SalaryRow salOrd :=
  ⟨fun _ _ _ h1 h2 => le_trans h2 h1⟩

/-- `get_all_salaries` (database.py lines 37-56). -/
def get_all_salaries (db : DB) : List SalaryRow :=
  List.insertionSort salOrd (salaryJoinRows db)

/-- Row shape of `get_all_departments`. -/
structure DeptRow where
  department_id : Int
  department_name : String
  location : String
  employee_count : Nat
deriving DecidableEq

/-- The join condition `d.department_id = e.department_id`. -/
def empCond : Department → Employee → Bool :=
  fun d e => e.department_id == some d.department_id

/-- The join condition `e.employee_id = s.employee_id` of the salary join in
`get_department_salary_stats`; SQL-false when the employee is NULL. -/
def salCond : Department × Option Employee → Salary → Bool :=
  fun de s =>
    match de.2 with
    | some e => s.employee_id == e.employee_id
    | none => false

/-- The FROM clause of `get_all_departments` and of
`get_department_salary_stats` up to the employee join:
department LEFT JOIN employee. -/
def deptJoinRows (db : DB) : List (Department × Option Employee) :=
  leftJoin db.department db.employee empCond

/-- The GROUP BY key of `get_all_departments`:
`d.department_id, d.department_name, d.location`. -/
def deptKey (r : Department × Option Employee) : Int × String × String :=
  (r.1.department_id, r.1.department_name, r.1.location)

/-- `ORDER BY employee_count DESC`. -/
def deptOrd : DeptRow → DeptRow → Prop :=
  fun a b => b.employee_count ≤ a.employee_count

instance : DecidableRel deptOrd :=
  fun a b => inferInstanceAs (Decidable (b.employee_count ≤ a.employee_count))

instance : IsTotal DeptRow deptOrd :=
  ⟨fun a b => Nat.le_total b.employee_count a.employee_count⟩

instance : IsTrans DeptRow deptOrd :=
  ⟨fun _ _ _ h1 h2 => le_trans h2 h1⟩

/-- `get_all_departments` (database.py lines 59-75): department LEFT JOIN
employee, grouped by (id, name, location) with `COUNT(e.employee_id)`,
ordered by employee count descending. -/
def get_all_departments (db : DB) : List DeptRow :=
  List.insertionSort deptOrd
    ((groupKeys deptKey (deptJoinRows db)).map (fun k =>
      { department_id := k.1
        department_name := k.2.1
        location := k.2.2
        employee_count :=
          ((deptJoinRows db).filter (fun r => decide (deptKey r = k))).countP
            (fun r => r.2.isSome) }))

/-- Row shape of `get_department_salary_stats`; SQL NULL aggregates are
`none`. -/
structure StatsRow where
  department_name : String
  employee_count : Nat
  avg_total_compensation : Option ℚ
  total_compensation : Option ℚ
  min_compensation : Option ℚ
  max_compensation : Option ℚ
deriving DecidableEq

/-- The FROM clause of `get_department_salary_stats`:
department LEFT JOIN employee LEFT JOIN salary. -/
def statJoinRows (db : DB) : List ((Department × Option Employee) × Option Salary) :=
  leftJoin (deptJoinRows db) db.salary salCond

/-- The non-NULL `s.base_salary + s.bonus` values of a group of join rows;
SQLite aggregates skip NULL inputs. -/
def comps (rows : List ((Department × Option Employee) × Option Salary)) : List ℚ :=
  rows.filterMap (fun r => r.2.map (fun s => s.base_salary + s.bonus))

/-- `ROUND(AVG(x), 2)`: NULL over an empty group. -/
def aggAvg (l : List ℚ) : Option ℚ :=
  if l.isEmpty then none else some (round2 (l.sum / (l.length : ℚ)))

/-- `ROUND(SUM(x), 2)`: NULL over an empty group. -/
def aggSum (l : List ℚ) : Option ℚ :=
  if l.isEmpty then none else some (round2 l.sum)

/-- `ROUND(MIN(x), 2)`: NULL over an empty group. -/
def aggMin (l : List ℚ) : Option ℚ := l.min?.map round2

/-- `ROUND(MAX(x), 2)`: NULL over an empty group. -/
def aggMax (l : List ℚ) : Option ℚ := l.max?.map round2

/-- The GROUP BY group of `get_department_salary_stats` for one department
name: the join rows whose department has that name. -/
def statsGroup (db : DB) (name : String) : List ((Department × Option Employee) × Option Salary) :=
  (statJoinRows db).filter (fun r => decide (r.1.1.department_name = name))

/-- The aggregate row produced for one GROUP BY group of
`get_department_salary_stats`, keyed by department name. -/
def statsRow (db : DB) (name : String) : StatsRow :=
  { department_name := name
    employee_count := (statsGroup db name).countP (fun r => r.1.2.isSome)
    avg_total_compensation := aggAvg (comps (statsGroup db name))
    total_compensation := aggSum (comps (statsGroup db name))
    min_compensation := aggMin (comps (statsGroup db name))
    max_compensation := aggMax (comps (statsGroup db name)) }

/-- SQL ordering on a nullable column: NULL sorts below every value. -/
def optLe (a b : Option ℚ) : Prop :=
  match a with
  | none => True
  | some x =>
    match b with
    | none => False
    | some y => x ≤ y

instance (a b : Option ℚ) : Decidable (optLe a b) :=
  match a, b with
  | none, _ => isTrue trivial
  | some _, none => isFalse (fun h => h)
  | some x, some y => inferInstanceAs (Decidable (x ≤ y))

/-- `ORDER BY avg_total_compensation DESC` (NULLs last). -/
def statOrd : StatsRow → StatsRow → Prop :=
  fun a b => optLe b.avg_total_compensation a.avg_total_compensation

instance : DecidableRel statOrd :=
  fun a b => inferInstanceAs (Decidable (optLe b.avg_total_compensation a.avg_total_compensation))

/-- The GROUP BY key of `get_department_salary_stats`:
`d.department_name` alone. -/
def statKey : (Department × Option Employee) × Option Salary → String :=
  fun r => r.1.1.department_name

/-- `get_department_salary_stats` (database.py lines 78-97): grouped by
`d.department_name` alone, ordered by the rounded average descending. -/
def get_department_salary_stats (db : DB) : List StatsRow :=
  List.insertionSort statOrd
    ((groupKeys statKey (statJoinRows db)).map (statsRow db))

/-- Row shape of `get_employee_by_id`: the salary columns are null when the
employee has no salary record. -/
structure EmployeeDetailRow where
  employee_id : Int
  first_name : String
  last_name : String
  email : String
  hire_date : String
  department_name : Option String
  location : Option String
  base_salary : Option ℚ
  bonus : Option ℚ
  total_compensation : Option ℚ
deriving DecidableEq

/-- `get_employee_by_id` (database.py lines 100-122): the WHERE clause on
`e.employee_id` restricts the employee table, then department and salary
are left-joined; no ORDER BY. -/
def get_employee_by_id (db : DB) (eid : Int) : List EmployeeDetailRow :=
  (leftJoin
      (leftJoin (db.employee.filter (fun e => e.employee_id == eid)) db.department
        (fun e d => e.department_id == some d.department_id))
      db.salary (fun ed s => s.employee_id == ed.1.employee_id)).map
    (fun r =>
      { employee_id := r.1.1.employee_id
        first_name := r.1.1.first_name
        last_name := r.1.1.last_name
        email := r.1.1.email
        hire_date := r.1.1.hire_date
        department_name := r.1.2.map (fun d => d.department_name)
        location := r.1.2.map (fun d => d.location)
        base_salary := r.2.map (fun s => s.base_salary)
        bonus := r.2.map (fun s => s.bonus)
        total_compensation := r.2.map (fun s => s.base_salary + s.bonus) })

/-- Employees assigned to department `d`: the matches of the
department-to-employee join condition. -/
def empsOf (db : DB) (d : Department) : List Employee :=
  db.employee.filter (empCond d)

/-- Salary rows owned by employee `e`: the matches of the
employee-to-salary join condition. -/
def salsOf (db : DB) (e : Employee) : List Salary :=
  db.salary.filter (fun s => s.employee_id == e.employee_id)

/-- The total-compensation values of all salary rows reachable from
department `d` through its employees. -/
def compsOf (db : DB) (d : Department) : List ℚ :=
  (empsOf db d).flatMap (fun e => (salsOf db e).map (fun s => s.base_salary + s.bonus))

/-- `top_earners` (app.py lines 334-342):
`salaries_df.nlargest(n, total_compensation)` on the loaded salary roster,
which is a stable descending selection of the first `n` rows by
total compensation (pandas keep-first policy). -/
def top_earners (db : DB) (n : Nat) : List SalaryRow :=
  (List.insertionSort salOrd (get_all_salaries db)).take n

/-- The salary-roster ordering lifted to rows tagged with their input
position, used to state stability of the ORDER BY. -/
def salOrdIdx : Nat × SalaryRow → Nat × SalaryRow → Prop :=
  fun a b => b.2.total_compensation ≤ a.2.total_compensation

instance : DecidableRel salOrdIdx :=
  fun a b => inferInstanceAs (Decidable (b.2.total_compensation ≤ a.2.total_compensation))

instance : IsTotal (Nat × SalaryRow) salOrdIdx :=
  ⟨fun a b => le_total b.2.total_compensation a.2.total_compensation⟩

instance : IsTrans (Nat × SalaryRow) salOrdIdx :=
  ⟨fun _ _ _ h1 h2 => le_trans h2 h1⟩

/-- The salary roster sorted together with each row's input position. -/
def get_all_salaries_idx (db : DB) : List (Nat × SalaryRow) :=
  List.insertionSort salOrdIdx (salaryJoinRows db).enum

/-- Outcome of executing `pd.read_sql_query`: a result frame, or a raised
exception. -/
inductive QueryOutcome (α : Type) where
  | ok : α → QueryOutcome α
  | fail : String → QueryOutcome α
deriving DecidableEq

/-- Connection bookkeeping for one query call: whether `get_connection()`
ran, and whether `conn.close()` ran before the call returned. -/
structure ConnLog where
  acquired : Bool
  released : Bool
deriving DecidableEq

/-- The body shared by every query function of database.py:
`conn = get_connection()`, `df = pd.read_sql_query(query, conn)`,
`conn.close()`, `return df`.  The statements run in sequence with no
try/finally, so an exception raised by `read_sql_query` propagates before
`conn.close()` is reached. -/
def runQuery (exec : QueryOutcome α) : QueryOutcome α × ConnLog :=
  match exec with
  | QueryOutcome.ok a => (QueryOutcome.ok a, { acquired := true, released := true })
  | QueryOutcome.fail e => (QueryOutcome.fail e, { acquired := true, released := false })

/-! ### Small concrete databases used to instantiate the theorems -/

/-- One department, one employee, one salary record. -/
def wdb1 : DB where
  department := [⟨1, "E", "L"⟩]
  employee := [⟨1, "A", "B", "a", "h", some 1⟩]
  salary := [⟨1, 1, 3, 1, "t"⟩]

/-- The single row `get_all_salaries wdb1` produces. -/
def wrow1 : SalaryRow :=
  ⟨1, "A B", 3, 1, 3 + 1, "t", some "E"⟩

/-- The single row `get_employee_by_id wdb1 1` produces. -/
def wdrow1 : EmployeeDetailRow :=
  ⟨1, "A", "B", "a", "h", some "E", some "L", some 3, some 1, some (3 + 1)⟩

/-- Department 1 has one employee and no salary rows; department 2 has no
employees. -/
def wdb2 : DB where
  department := [⟨1, "E", "L"⟩, ⟨2, "H", "M"⟩]
  employee := [⟨1, "A", "B", "a", "h", some 1⟩]
  salary := []

/-- One department with two employees; the first owns two salary records,
the second owns none. -/
def wdb4 : DB where
  department := [⟨1, "E", "L"⟩]
  employee := [⟨1, "A", "B", "a", "h", some 1⟩, ⟨2, "C", "D", "c", "i", some 1⟩]
  salary := [⟨1, 1, 3, 1, "t"⟩, ⟨2, 1, 4, 2, "u"⟩]

/-- Two distinct departments (ids 1 and 2) sharing the name X. -/
def cex5db : DB where
  department := [⟨1, "X", "A"⟩, ⟨2, "X", "B"⟩]
  employee := []
  salary := []

/-- Three departments with ascending ids; only department 2 has an
employee, so departments 1 and 3 tie at employee count zero. -/
def wdb8 : DB where
  department := [⟨1, "E", "L"⟩, ⟨2, "H", "M"⟩, ⟨3, "S", "N"⟩]
  employee := [⟨1, "A", "B", "a", "h", some 2⟩]
  salary := []

/-! ### Generic lemmas about the join and grouping combinators -/

theorem fst_of_mem_joinBlock {a : α} {r : List β} {p : α → β → Bool}
    {x : α × Option β} (hx : x ∈ joinBlock a r p) : x.1 = a := by
  unfold joinBlock at hx
  split at hx
  · rw [List.mem_singleton.mp hx]
  · obtain ⟨b, _, rfl⟩ := List.mem_map.mp hx
    rfl

theorem snd_of_mem_joinBlock {a : α} {r : List β} {p : α → β → Bool}
    {x : α × Option β} (hx : x ∈ joinBlock a r p) {b : β} (hb : x.2 = some b) :
    b ∈ r ∧ p a b = true := by
  unfold joinBlock at hx
  split at hx
  · rw [List.mem_singleton.mp hx] at hb
    simp at hb
  · obtain ⟨c, hc, rfl⟩ := List.mem_map.mp hx
    obtain rfl : c = b := by simpa using hb
    exact List.mem_filter.mp hc

theorem exists_mem_joinBlock (a : α) (r : List β) (p : α → β → Bool) :
    ∃ ob, (a, ob) ∈ joinBlock a r p := by
  unfold joinBlock
  split
  · exact ⟨none, List.mem_singleton_self _⟩
  · rename_i h
    obtain ⟨b, hb⟩ := List.exists_mem_of_ne_nil _ (fun hnil => h (List.isEmpty_iff.mpr hnil))
    exact ⟨some b, List.mem_map.mpr ⟨b, hb, rfl⟩⟩

theorem joinBlock_of_no_match {a : α} {r : List β} {p : α → β → Bool}
    (h : r.filter (p a) = []) : joinBlock a r p = [(a, none)] := by
  unfold joinBlock
  rw [if_pos (List.isEmpty_iff.mpr h)]

theorem joinBlock_of_matches {a : α} {r : List β} {p : α → β → Bool} {b : β} {bs : List β}
    (h : r.filter (p a) = b :: bs) :
    joinBlock a r p = (b :: bs).map (fun c => (a, some c)) := by
  unfold joinBlock
  rw [h]
  rfl

theorem leftJoin_nil (r : List β) (p : α → β → Bool) : leftJoin ([] : List α) r p = [] := rfl

theorem leftJoin_cons (a : α) (l : List α) (r : List β) (p : α → β → Bool) :
    leftJoin (a :: l) r p = joinBlock a r p ++ leftJoin l r p :=
  List.flatMap_cons a l _

theorem leftJoin_singleton (a : α) (r : List β) (p : α → β → Bool) :
    leftJoin [a] r p = joinBlock a r p := by
  rw [leftJoin_cons, leftJoin_nil, List.append_nil]

theorem fst_mem_of_mem_leftJoin {l : List α} {r : List β} {p : α → β → Bool}
    {x : α × Option β} (hx : x ∈ leftJoin l r p) : x.1 ∈ l := by
  induction l with
  | nil => simp [leftJoin] at hx
  | cons a t ih =>
    rw [leftJoin_cons] at hx
    rcases List.mem_append.mp hx with h | h
    · rw [fst_of_mem_joinBlock h]; exact List.mem_cons_self a t
    · exact List.mem_cons_of_mem a (ih h)

theorem snd_of_mem_leftJoin {l : List α} {r : List β} {p : α → β → Bool}
    {x : α × Option β} (hx : x ∈ leftJoin l r p) {b : β} (hb : x.2 = some b) :
    b ∈ r ∧ p x.1 b = true := by
  induction l with
  | nil => simp [leftJoin] at hx
  | cons a t ih =>
    rw [leftJoin_cons] at hx
    rcases List.mem_append.mp hx with h | h
    · rw [fst_of_mem_joinBlock h]
      exact snd_of_mem_joinBlock h hb
    · exact ih h

theorem exists_mem_leftJoin {l : List α} {r : List β} {p : α → β → Bool} {a : α}
    (ha : a ∈ l) : ∃ ob, (a, ob) ∈ leftJoin l r p := by
  induction l with
  | nil => cases ha
  | cons c t ih =>
    rw [leftJoin_cons]
    rcases List.mem_cons.mp ha with rfl | h
    · obtain ⟨ob, hob⟩ := exists_mem_joinBlock a r p
      exact ⟨ob, List.mem_append_left _ hob⟩
    · obtain ⟨ob, hob⟩ := ih h
      exact ⟨ob, List.mem_append_right _ hob⟩

theorem filter_fst_leftJoin (l : List α) (r : List β) (p : α → β → Bool) (q : α → Bool) :
    (leftJoin l r p).filter (fun x => q x.1) = leftJoin (l.filter q) r p := by
  induction l with
  | nil => rfl
  | cons a t ih =>
    rw [leftJoin_cons, List.filter_append, ih, List.filter_cons]
    by_cases hq : q a = true
    · rw [if_pos hq, leftJoin_cons]
      congr 1
      exact List.filter_eq_self.mpr (fun x hx => by rw [fst_of_mem_joinBlock hx]; exact hq)
    · rw [if_neg hq]
      have hz : (joinBlock a r p).filter (fun x => q x.1) = [] :=
        List.filter_eq_nil_iff.mpr (fun x hx => by rw [fst_of_mem_joinBlock hx]; simpa using hq)
      rw [hz, List.nil_append]

theorem joinBlock_length (a : α) (r : List β) (p : α → β → Bool) :
    (joinBlock a r p).length = max 1 (r.filter (p a)).length := by
  unfold joinBlock
  split
  · rename_i h
    rw [List.isEmpty_iff.mp h]
    rfl
  · rename_i h
    rw [List.length_map]
    have hp : 0 < (r.filter (p a)).length :=
      List.length_pos.mpr (List.isEmpty_eq_false.mp (Bool.of_not_eq_true h))
    omega

theorem countP_joinBlock (a : α) (r : List β) (p : α → β → Bool) (q : α → Bool) :
    (joinBlock a r p).countP (fun x => q x.1) =
      if q a then (joinBlock a r p).length else 0 := by
  by_cases hq : q a = true
  · rw [if_pos hq]
    exact List.countP_eq_length.mpr (fun x hx => by rw [fst_of_mem_joinBlock hx]; exact hq)
  · rw [if_neg hq]
    exact List.countP_eq_zero.mpr (fun x hx => by rw [fst_of_mem_joinBlock hx]; simpa using hq)

theorem countP_fst_leftJoin (l : List α) (r : List β) (p : α → β → Bool) (q : α → Bool) :
    (leftJoin l r p).countP (fun x => q x.1) =
      (l.map (fun a => if q a then (joinBlock a r p).length else 0)).sum := by
  induction l with
  | nil => rfl
  | cons a t ih =>
    rw [leftJoin_cons, List.countP_append, ih, List.map_cons, List.sum_cons,
      countP_joinBlock]

theorem filterMap_joinBlock (a : α) (r : List β) (p : α → β → Bool) (g : β → γ) :
    (joinBlock a r p).filterMap (fun x => x.2.map g) = (r.filter (p a)).map g := by
  unfold joinBlock
  split
  · rename_i h
    rw [List.isEmpty_iff.mp h]
    rfl
  · rw [List.filterMap_map]
    exact congrFun (List.filterMap_eq_map (fun b => g b)) (r.filter (p a))

theorem filterMap_snd_leftJoin (l : List α) (r : List β) (p : α → β → Bool) (g : β → γ) :
    (leftJoin l r p).filterMap (fun x => x.2.map g) =
      l.flatMap (fun a => (r.filter (p a)).map g) := by
  induction l with
  | nil => rfl
  | cons a t ih =>
    rw [leftJoin_cons, List.filterMap_append, ih, List.flatMap_cons, filterMap_joinBlock]

theorem pairwise_leftJoin {q : α → α → Prop} {l : List α} (r : List β) (p : α → β → Bool)
    (hl : l.Pairwise q) :
    (leftJoin l r p).Pairwise (fun x y => x.1 = y.1 ∨ q x.1 y.1) := by
  induction l with
  | nil => exact List.Pairwise.nil
  | cons a t ih =>
    obtain ⟨ha, ht⟩ := List.pairwise_cons.mp hl
    rw [leftJoin_cons, List.pairwise_append]
    refine ⟨?_, ih ht, ?_⟩
    · exact List.pairwise_of_forall_mem_list (fun x hx y hy =>
        Or.inl ((fst_of_mem_joinBlock hx).trans (fst_of_mem_joinBlock hy).symm))
    · intro x hx y hy
      rw [fst_of_mem_joinBlock hx]
      exact Or.inr (ha y.1 (fst_mem_of_mem_leftJoin hy))

theorem groupKeysAux_nil [DecidableEq κ] (key : α → κ) (n : Nat) :
    groupKeysAux key n ([] : List α) = [] := by
  cases n <;> rfl

theorem mem_groupKeysAux [DecidableEq κ] (key : α → κ) {k : κ} :
    ∀ (n : Nat) (l : List α), l.length ≤ n →
      (k ∈ groupKeysAux key n l ↔ ∃ a ∈ l, key a = k) := by
  intro n
  induction n with
  | zero =>
    intro l hl
    rw [List.length_eq_zero.mp (Nat.le_zero.mp hl)]
    simp [groupKeysAux_nil]
  | succ n ih =>
    intro l hl
    cases l with
    | nil => simp [groupKeysAux_nil]
    | cons a t =>
      rw [groupKeysAux, List.mem_cons]
      have hlen : (t.filter (fun b => decide (key b ≠ key a))).length ≤ n :=
        le_trans (List.length_filter_le _ _) (Nat.le_of_succ_le_succ hl)
      rw [ih _ hlen]
      constructor
      · rintro (rfl | ⟨b, hb, rfl⟩)
        · exact ⟨a, List.mem_cons_self a t, rfl⟩
        · exact ⟨b, List.mem_cons_of_mem a (List.mem_filter.mp hb).1, rfl⟩
      · rintro ⟨b, hb, rfl⟩
        rcases List.mem_cons.mp hb with rfl | hbt
        · exact Or.inl rfl
        · by_cases hk : key b = key a
          · exact Or.inl hk
          · exact Or.inr ⟨b, List.mem_filter.mpr ⟨hbt, by simpa using hk⟩, rfl⟩

theorem mem_groupKeys [DecidableEq κ] (key : α → κ) {k : κ} (l : List α) :
    k ∈ groupKeys key l ↔ ∃ a ∈ l, key a = k :=
  mem_groupKeysAux key l.length l le_rfl

theorem nodup_groupKeysAux [DecidableEq κ] (key : α → κ) :
    ∀ (n : Nat) (l : List α), l.length ≤ n → (groupKeysAux key n l).Nodup := by
  intro n
  induction n with
  | zero =>
    intro l hl
    rw [List.length_eq_zero.mp (Nat.le_zero.mp hl), groupKeysAux_nil]
    exact List.nodup_nil
  | succ n ih =>
    intro l hl
    cases l with
    | nil => rw [groupKeysAux_nil]; exact List.nodup_nil
    | cons a t =>
      rw [groupKeysAux]
      have hlen : (t.filter (fun b => decide (key b ≠ key a))).length ≤ n :=
        le_trans (List.length_filter_le _ _) (Nat.le_of_succ_le_succ hl)
      refine List.Pairwise.cons ?_ (ih _ hlen)
      intro k hk
      obtain ⟨b, hb, rfl⟩ := (mem_groupKeysAux key n _ hlen).mp hk
      have := (List.mem_filter.mp hb).2
      simp only [decide_eq_true_eq] at this
      exact fun h => this h.symm

theorem nodup_groupKeys [DecidableEq κ] (key : α → κ) (l : List α) :
    (groupKeys key l).Nodup :=
  nodup_groupKeysAux key l.length l le_rfl

theorem pairwise_groupKeysAux [DecidableEq κ] {q : κ → κ → Prop} (key : α → κ) :
    ∀ (n : Nat) (l : List α), l.length ≤ n →
      l.Pairwise (fun x y => key x = key y ∨ q (key x) (key y)) →
      (groupKeysAux key n l).Pairwise q := by
  intro n
  induction n with
  | zero =>
    intro l hl _
    rw [List.length_eq_zero.mp (Nat.le_zero.mp hl), groupKeysAux_nil]
    exact List.Pairwise.nil
  | succ n ih =>
    intro l hl hp
    cases l with
    | nil => rw [groupKeysAux_nil]; exact List.Pairwise.nil
    | cons a t =>
      obtain ⟨ha, ht⟩ := List.pairwise_cons.mp hp
      rw [groupKeysAux]
      have hlen : (t.filter (fun b => decide (key b ≠ key a))).length ≤ n :=
        le_trans (List.length_filter_le _ _) (Nat.le_of_succ_le_succ hl)
      refine List.Pairwise.cons ?_ (ih _ hlen (ht.sublist (List.filter_sublist t)))
      intro k hk
      obtain ⟨b, hb, rfl⟩ := (mem_groupKeysAux key n _ hlen).mp hk
      obtain ⟨hbt, hne⟩ := List.mem_filter.mp hb
      simp only [decide_eq_true_eq] at hne
      rcases ha b hbt with h | h
      · exact absurd h.symm hne
      · exact h

theorem pairwise_groupKeys [DecidableEq κ] {q : κ → κ → Prop} (key : α → κ) (l : List α)
    (hp : l.Pairwise (fun x y => key x = key y ∨ q (key x) (key y))) :
    (groupKeys key l).Pairwise q :=
  pairwise_groupKeysAux key l.length l le_rfl hp

/-! ### Stability of the insertion sort used to model ORDER BY

`List.insertionSort` is a stable sort: if the input list is `Pairwise p`
for some auxiliary relation `p` (for example, ascending input position),
then in the output any element placed before another is either strictly
smaller in the sort key or tied with it and `p`-related to it. -/

theorem orderedInsert_pairwise_stable {r : α → α → Prop} [DecidableRel r]
    [IsTotal α r] [IsTrans α r] {p : α → α → Prop} {a : α} :
    ∀ {L : List α}, L.Sorted r →
      L.Pairwise (fun x y => r x y ∧ (¬ r y x ∨ p x y)) →
      (∀ b ∈ L, p a b) →
      (L.orderedInsert r a).Pairwise (fun x y => r x y ∧ (¬ r y x ∨ p x y)) := by
  intro L
  induction L with
  | nil =>
    intro _ _ _
    exact List.pairwise_singleton _ a
  | cons b L ih =>
    intro hL hs ha
    by_cases hab : r a b
    · rw [List.orderedInsert_of_le _ _ hab]
      refine List.pairwise_cons.mpr ⟨?_, hs⟩
      intro y hy
      rcases List.mem_cons.mp hy with rfl | hyL
      · exact ⟨hab, Or.inr (ha y (List.mem_cons_self y L))⟩
      · exact ⟨IsTrans.trans a b y hab (List.rel_of_sorted_cons hL y hyL),
          Or.inr (ha y (List.mem_cons_of_mem b hyL))⟩
    · show ((b :: L).orderedInsert r a).Pairwise _
      rw [List.orderedInsert, if_neg hab]
      obtain ⟨hbs, hs'⟩ := List.pairwise_cons.mp hs
      refine List.pairwise_cons.mpr
        ⟨?_, ih hL.of_cons hs' (fun c hc => ha c (List.mem_cons_of_mem b hc))⟩
      intro y hy
      rcases (List.mem_orderedInsert r).mp hy with rfl | hyL
      · exact ⟨(IsTotal.total (r := r) y b).resolve_left hab, Or.inl hab⟩
      · exact hbs y hyL

theorem insertionSort_pairwise_stable {r : α → α → Prop} [DecidableRel r]
    [IsTotal α r] [IsTrans α r] {p : α → α → Prop} :
    ∀ {l : List α}, l.Pairwise p →
      (List.insertionSort r l).Pairwise (fun x y => r x y ∧ (¬ r y x ∨ p x y)) := by
  intro l
  induction l with
  | nil =>
    intro _
    exact List.Pairwise.nil
  | cons a l ih =>
    intro hp
    obtain ⟨hap, hp'⟩ := List.pairwise_cons.mp hp
    exact orderedInsert_pairwise_stable (List.sorted_insertionSort r l) (ih hp')
      (fun b hb => hap b ((List.mem_insertionSort r).mp hb))

theorem pairwise_fst_lt_enumFrom (n : Nat) (l : List α) :
    (List.enumFrom n l).Pairwise (fun x y => x.1 < y.1) := by
  induction l generalizing n with
  | nil => exact List.Pairwise.nil
  | cons a t ih =>
    refine List.Pairwise.cons ?_ (ih (n + 1))
    rintro ⟨i, b⟩ hy
    exact lt_of_lt_of_le (Nat.lt_succ_self n) (List.mem_enumFrom hy).1

theorem pairwise_fst_lt_enum (l : List α) :
    l.enum.Pairwise (fun x y => x.1 < y.1) :=
  pairwise_fst_lt_enumFrom 0 l

/-! ### Characterization of the department-statistics groups -/

theorem filter_name_eq_of_nodup :
    ∀ {l : List Department}, (l.map Department.department_name).Nodup →
      ∀ {d : Department}, d ∈ l →
        l.filter (fun x => decide (x.department_name = d.department_name)) = [d] := by
  intro l
  induction l with
  | nil =>
    intro _ d hd
    cases hd
  | cons c t ih =>
    intro h d hd
    rw [List.map_cons, List.nodup_cons] at h
    rw [List.filter_cons]
    rcases List.mem_cons.mp hd with rfl | hdt
    · rw [if_pos (by simp)]
      have hz : t.filter (fun x => decide (x.department_name = d.department_name)) = [] :=
        List.filter_eq_nil_iff.mpr (fun x hx => by
          simp only [decide_eq_true_eq]
          intro he
          exact h.1 (by rw [← he]; exact List.mem_map_of_mem Department.department_name hx))
      rw [hz]
    · have hne : ¬ (c.department_name = d.department_name) := fun he =>
        h.1 (by rw [he]; exact List.mem_map_of_mem Department.department_name hdt)
      rw [if_neg (by simpa using hne)]
      exact ih h.2 hdt

theorem statsGroup_eq (db : DB) (d : Department)
    (hnames : (db.department.map Department.department_name).Nodup)
    (hd : d ∈ db.department) :
    statsGroup db d.department_name =
      leftJoin (joinBlock d db.employee empCond) db.salary salCond := by
  have h1 : statsGroup db d.department_name =
      leftJoin
        ((deptJoinRows db).filter (fun de => decide (de.1.department_name = d.department_name)))
        db.salary salCond :=
    filter_fst_leftJoin (deptJoinRows db) db.salary salCond
      (fun de => decide (de.1.department_name = d.department_name))
  have h2 : (deptJoinRows db).filter
        (fun de => decide (de.1.department_name = d.department_name)) =
      leftJoin
        (db.department.filter (fun dd => decide (dd.department_name = d.department_name)))
        db.employee empCond :=
    filter_fst_leftJoin db.department db.employee empCond
      (fun dd => decide (dd.department_name = d.department_name))
  rw [h1, h2, filter_name_eq_of_nodup hnames hd, leftJoin_singleton]

theorem statsGroup_countP (db : DB) (d : Department)
    (hnames : (db.department.map Department.department_name).Nodup)
    (hd : d ∈ db.department) :
    (statsGroup db d.department_name).countP (fun r => r.1.2.isSome) =
      ((empsOf db d).map (fun e => max 1 (salsOf db e).length)).sum := by
  rw [statsGroup_eq db d hnames hd]
  refine Eq.trans (countP_fst_leftJoin _ db.salary salCond (fun de => de.2.isSome)) ?_
  cases hc : empsOf db d with
  | nil =>
    rw [joinBlock_of_no_match (p := empCond) hc]
    rfl
  | cons e es =>
    rw [joinBlock_of_matches (p := empCond) hc, List.map_map]
    refine Eq.trans (congrArg List.sum (List.map_congr_left ?_)) rfl
    intro c _
    show (if (some c).isSome = true
        then (joinBlock ((d, some c) : Department × Option Employee) db.salary salCond).length
        else 0) = max 1 (salsOf db c).length
    simp only [Option.isSome_some, joinBlock_length, if_true]
    rfl

theorem statsGroup_comps (db : DB) (d : Department)
    (hnames : (db.department.map Department.department_name).Nodup)
    (hd : d ∈ db.department) :
    comps (statsGroup db d.department_name) = compsOf db d := by
  rw [statsGroup_eq db d hnames hd]
  unfold comps
  rw [filterMap_snd_leftJoin _ db.salary salCond (fun s => s.base_salary + s.bonus)]
  cases hc : empsOf db d with
  | nil =>
    rw [joinBlock_of_no_match (p := empCond) hc]
    unfold compsOf
    rw [hc]
    have hz : List.filter (salCond (d, none)) db.salary = [] :=
      List.filter_eq_nil_iff.mpr (fun s _ => by simp [salCond])
    simp only [List.flatMap_cons, List.flatMap_nil, hz, List.map_nil, List.append_nil]
  | cons e es =>
    rw [joinBlock_of_matches (p := empCond) hc, List.flatMap_map]
    unfold compsOf
    rw [hc]
    rfl

theorem statsRow_mem (db : DB) {d : Department} (hd : d ∈ db.department) :
    statsRow db d.department_name ∈ get_department_salary_stats db := by
  rw [get_department_salary_stats, List.mem_insertionSort]
  refine List.mem_map.mpr ⟨d.department_name, ?_, rfl⟩
  rw [mem_groupKeys]
  obtain ⟨oe, hoe⟩ := exists_mem_leftJoin (r := db.employee) (p := empCond) hd
  obtain ⟨os, hos⟩ :=
    exists_mem_leftJoin (l := deptJoinRows db) (r := db.salary) (p := salCond) hoe
  exact ⟨((d, oe), os), hos, rfl⟩

theorem sum_map_ones (l : List α) : (l.map (fun _ => (1 : Nat))).sum = l.length := by
  induction l with
  | nil => rfl
  | cons a t ih => simp [ih, Nat.add_comm]

/-! ### The claims -/

/-- Claim C1: in every row of `get_all_salaries` (and in every row of
`get_employee_by_id`), the `total_compensation` field is exactly
`base_salary + bonus`, computed at query time from the two components with
no rounding; it is never read from a stored field. -/
theorem total_compensation_is_sum (db : DB) :
    (∀ row ∈ get_all_salaries db,
      row.total_compensation = row.base_salary + row.bonus) ∧
    (∀ eid : Int, ∀ row ∈ get_employee_by_id db eid,
      row.total_compensation =
        row.base_salary.bind (fun b => row.bonus.map (fun c => b + c))) := by
  constructor
  · intro row hrow
    rw [get_all_salaries, List.mem_insertionSort] at hrow
    unfold salaryJoinRows at hrow
    obtain ⟨r, _, rfl⟩ := List.mem_map.mp hrow
    rfl
  · intro eid row hrow
    unfold get_employee_by_id at hrow
    obtain ⟨r, _, rfl⟩ := List.mem_map.mp hrow
    cases r.2 <;> rfl

/-- Witness for C1 at the one-salary database `wdb1`. -/
theorem total_compensation_is_sum_witness :
    wrow1 ∈ get_all_salaries wdb1 ∧
    wrow1.total_compensation = wrow1.base_salary + wrow1.bonus ∧
    wdrow1 ∈ get_employee_by_id wdb1 1 ∧
    wdrow1.total_compensation =
      wdrow1.base_salary.bind (fun b => wdrow1.bonus.map (fun c => b + c)) := by
  have h1 : wrow1 ∈ get_all_salaries wdb1 := by
    rw [show get_all_salaries wdb1 = [wrow1] from rfl]
    exact List.mem_singleton_self wrow1
  have h2 : wdrow1 ∈ get_employee_by_id wdb1 1 := by
    rw [show get_employee_by_id wdb1 1 = [wdrow1] from rfl]
    exact List.mem_singleton_self wdrow1
  exact ⟨h1, (total_compensation_is_sum wdb1).1 wrow1 h1, h2,
    (total_compensation_is_sum wdb1).2 1 wdrow1 h2⟩

/-- Claim C7: when `n` is at least the number of salary-roster rows,
`top_earners` returns exactly the salary roster, in the same order, with
no duplication or omission, and without error. -/
theorem top_earners_returns_all (db : DB) (n : Nat)
    (h : (get_all_salaries db).length ≤ n) :
    top_earners db n = get_all_salaries db := by
  unfold top_earners get_all_salaries
  rw [List.Sorted.insertionSort_eq
    (List.sorted_insertionSort salOrd (salaryJoinRows db))]
  exact List.take_of_length_le h

/-- Witness for C7 at `wdb1` with `n = 5` and one available record. -/
theorem top_earners_returns_all_witness :
    (get_all_salaries wdb1).length ≤ 5 ∧ top_earners wdb1 5 = get_all_salaries wdb1 :=
  ⟨by decide, top_earners_returns_all wdb1 5 (by decide)⟩

/-- Counterexample to claim C9: when `pd.read_sql_query` raises (for
example, the database file is missing), the connection is not released —
`conn.close()` is never reached, because no try/finally protects it. -/
theorem query_release_cex :
    ((runQuery (QueryOutcome.fail "unable to open database file") :
        QueryOutcome (List EmployeeRow) × ConnLog).2).released = false :=
  rfl

/-- Claim C9 as amended: every query operation acquires a connection and
executes one statement; the connection is closed before returning exactly
when execution succeeds — on failure the exception propagates with the
connection left open. -/
theorem query_connection_lifecycle (exec : QueryOutcome α) :
    (runQuery exec).1 = exec ∧
    (runQuery exec).2.acquired = true ∧
    ((runQuery exec).2.released = true ↔ ∃ a, exec = QueryOutcome.ok a) := by
  cases exec with
  | ok a => exact ⟨rfl, rfl, fun _ => ⟨a, rfl⟩, fun _ => rfl⟩
  | fail e =>
    refine ⟨rfl, rfl, fun h => ?_, fun h => ?_⟩
    · cases h
    · obtain ⟨a, ha⟩ := h
      cases ha

/-- Counterexample to claim C4: in `wdb4` one department has two employee
rows, one of which owns two salary records; the reported employee count is
3, not the number of employee rows (2) — the left join to salary fans the
count out. -/
theorem dept_stats_count_fanout_cex :
    (get_department_salary_stats wdb4).map (fun r => r.employee_count) = [3] ∧
    wdb4.employee.length = 2 := by
  constructor
  · decide
  · rfl

/-- Counterexample to claim C5: `cex5db` has two distinct departments (ids
1 and 2) sharing the name X, but `get_department_salary_stats` returns a
single aggregate row, because it groups by department name alone. -/
theorem dept_stats_name_collision_cex :
    cex5db.department.length = 2 ∧
    (cex5db.department.map Department.department_id).Nodup ∧
    (get_department_salary_stats cex5db).length = 1 := by
  refine ⟨rfl, by decide, ?_⟩
  decide

/-- Claim C2: for a department whose employees own no salary rows
(in a database whose department names are distinct), the statistics view
reports the department's employee count — positive when it has employees,
zero when it has none — and null (not zero) for all four aggregates. -/
theorem dept_stats_no_salaries_null (db : DB) (d : Department)
    (hnames : (db.department.map Department.department_name).Nodup)
    (hd : d ∈ db.department)
    (hnosal : ∀ e ∈ db.employee, e.department_id = some d.department_id →
      ∀ s ∈ db.salary, s.employee_id ≠ e.employee_id) :
    ∃ row ∈ get_department_salary_stats db,
      row.department_name = d.department_name ∧
      row.employee_count = (empsOf db d).length ∧
      row.avg_total_compensation = none ∧
      row.total_compensation = none ∧
      row.min_compensation = none ∧
      row.max_compensation = none := by
  have hsals : ∀ e ∈ empsOf db d, salsOf db e = [] := by
    intro e he
    obtain ⟨hemem, hcond⟩ := List.mem_filter.mp he
    have hdept : e.department_id = some d.department_id := by
      simpa [empCond] using hcond
    refine List.filter_eq_nil_iff.mpr (fun s hs => ?_)
    simp only [beq_iff_eq]
    exact hnosal e hemem hdept s hs
  have hcomps : compsOf db d = [] := by
    unfold compsOf
    rw [List.flatMap_eq_nil_iff]
    intro e he
    rw [hsals e he]
    rfl
  have hcount : ((empsOf db d).map (fun e => max 1 (salsOf db e).length)).sum =
      (empsOf db d).length := by
    have hm : (empsOf db d).map (fun e => max 1 (salsOf db e).length) =
        (empsOf db d).map (fun _ => 1) :=
      List.map_congr_left (fun e he => by rw [hsals e he]; simp)
    rw [hm, sum_map_ones]
  refine ⟨statsRow db d.department_name, statsRow_mem db hd, rfl, ?_, ?_, ?_, ?_, ?_⟩
  · exact (statsGroup_countP db d hnames hd).trans hcount
  · show aggAvg (comps (statsGroup db d.department_name)) = none
    rw [statsGroup_comps db d hnames hd, hcomps]
    rfl
  · show aggSum (comps (statsGroup db d.department_name)) = none
    rw [statsGroup_comps db d hnames hd, hcomps]
    rfl
  · show aggMin (comps (statsGroup db d.department_name)) = none
    rw [statsGroup_comps db d hnames hd, hcomps]
    rfl
  · show aggMax (comps (statsGroup db d.department_name)) = none
    rw [statsGroup_comps db d hnames hd, hcomps]
    rfl

/-- Witness for C2 at `wdb2`: department 1 has one employee and no salary
rows, department 2 has no employees; both get null aggregates. -/
theorem dept_stats_no_salaries_null_witness :
    ((wdb2.department.map Department.department_name).Nodup ∧
      (⟨1, "E", "L"⟩ : Department) ∈ wdb2.department ∧
      (empsOf wdb2 ⟨1, "E", "L"⟩).length = 1 ∧
      (empsOf wdb2 ⟨2, "H", "M"⟩).length = 0) ∧
    (∃ row ∈ get_department_salary_stats wdb2,
      row.department_name = (⟨1, "E", "L"⟩ : Department).department_name ∧
      row.employee_count = (empsOf wdb2 ⟨1, "E", "L"⟩).length ∧
      row.avg_total_compensation = none ∧
      row.total_compensation = none ∧
      row.min_compensation = none ∧
      row.max_compensation = none) ∧
    (∃ row ∈ get_department_salary_stats wdb2,
      row.department_name = (⟨2, "H", "M"⟩ : Department).department_name ∧
      row.employee_count = (empsOf wdb2 ⟨2, "H", "M"⟩).length ∧
      row.avg_total_compensation = none ∧
      row.total_compensation = none ∧
      row.min_compensation = none ∧
      row.max_compensation = none) :=
  ⟨⟨by decide, by decide, by decide, by decide⟩,
    dept_stats_no_salaries_null wdb2 ⟨1, "E", "L"⟩ (by decide) (by decide) (by decide),
    dept_stats_no_salaries_null wdb2 ⟨2, "H", "M"⟩ (by decide) (by decide) (by decide)⟩

/-- Claim C4 as amended: the employee count of the statistics view is the
number of rows of the department's group in the employee-salary left join:
each employee is counted once per owned salary record, and once when it
owns none.  It equals the number of employee rows only when no employee
owns more than one salary record. -/
theorem dept_stats_count_fanout (db : DB) (d : Department)
    (hnames : (db.department.map Department.department_name).Nodup)
    (hd : d ∈ db.department) :
    ∃ row ∈ get_department_salary_stats db,
      row.department_name = d.department_name ∧
      row.employee_count =
        ((empsOf db d).map (fun e => max 1 (salsOf db e).length)).sum :=
  ⟨statsRow db d.department_name, statsRow_mem db hd, rfl,
    statsGroup_countP db d hnames hd⟩

/-- Witness for the amended C4 at `wdb4`: two employee rows, one owning
two salary records, are reported as an employee count of 3. -/
theorem dept_stats_count_fanout_witness :
    ((wdb4.department.map Department.department_name).Nodup ∧
      (⟨1, "E", "L"⟩ : Department) ∈ wdb4.department ∧
      ((empsOf wdb4 ⟨1, "E", "L"⟩).map (fun e => max 1 (salsOf wdb4 e).length)).sum = 3 ∧
      wdb4.employee.length = 2) ∧
    ∃ row ∈ get_department_salary_stats wdb4,
      row.department_name = (⟨1, "E", "L"⟩ : Department).department_name ∧
      row.employee_count =
        ((empsOf wdb4 ⟨1, "E", "L"⟩).map (fun e => max 1 (salsOf wdb4 e).length)).sum :=
  ⟨⟨by decide, by decide, by decide, rfl⟩,
    dept_stats_count_fanout wdb4 ⟨1, "E", "L"⟩ (by decide) (by decide)⟩

/-- Claim C5 as amended: the statistics view returns exactly one aggregate
row per distinct department name — the row names are duplicate-free and
are exactly the names occurring in the department table; two departments
sharing a name are merged into a single row. -/
theorem dept_stats_one_row_per_name (db : DB) :
    ((get_department_salary_stats db).map StatsRow.department_name).Nodup ∧
    ∀ n : String,
      n ∈ (get_department_salary_stats db).map StatsRow.department_name ↔
        ∃ d ∈ db.department, d.department_name = n := by
  have hid : (groupKeys statKey (statJoinRows db)).map
        (StatsRow.department_name ∘ statsRow db) =
      groupKeys statKey (statJoinRows db) :=
    Eq.trans (List.map_congr_left (fun k _ => rfl)) (List.map_id _)
  have hperm : ((get_department_salary_stats db).map StatsRow.department_name).Perm
      (groupKeys statKey (statJoinRows db)) := by
    unfold get_department_salary_stats
    refine ((List.perm_insertionSort statOrd _).map StatsRow.department_name).trans ?_
    rw [List.map_map, hid]
  refine ⟨hperm.symm.nodup (nodup_groupKeys statKey _), ?_⟩
  intro n
  rw [hperm.mem_iff, mem_groupKeys]
  constructor
  · rintro ⟨r, hr, rfl⟩
    exact ⟨r.1.1, fst_mem_of_mem_leftJoin (fst_mem_of_mem_leftJoin hr), rfl⟩
  · rintro ⟨d, hd, rfl⟩
    obtain ⟨oe, hoe⟩ := exists_mem_leftJoin (r := db.employee) (p := empCond) hd
    obtain ⟨os, hos⟩ :=
      exists_mem_leftJoin (l := deptJoinRows db) (r := db.salary) (p := salCond) hoe
    exact ⟨((d, oe), os), hos, rfl⟩

/-- Claim C6: every department with no employee rows still appears in
`get_all_departments`, with an employee count of zero — the left join
never drops a department. -/
theorem departments_zero_count (db : DB) (d : Department)
    (hd : d ∈ db.department)
    (hnone : ∀ e ∈ db.employee, e.department_id ≠ some d.department_id) :
    ∃ row ∈ get_all_departments db,
      row.department_id = d.department_id ∧
      row.department_name = d.department_name ∧
      row.location = d.location ∧
      row.employee_count = 0 := by
  have hz : ((deptJoinRows db).filter (fun r =>
        decide (deptKey r = (d.department_id, d.department_name, d.location)))).countP
      (fun r => r.2.isSome) = 0 := by
    rw [List.countP_eq_zero]
    intro r hr
    obtain ⟨hrj, hkey⟩ := List.mem_filter.mp hr
    simp only [decide_eq_true_eq] at hkey
    cases h2 : r.2 with
    | none => simp
    | some e =>
      exfalso
      obtain ⟨he, hcond⟩ := snd_of_mem_leftJoin hrj h2
      have hid : e.department_id = some r.1.department_id := by
        simpa [empCond] using hcond
      have hfst : r.1.department_id = d.department_id := congrArg Prod.fst hkey
      exact hnone e he (by rw [hid, hfst])
  obtain ⟨ob, hob⟩ := exists_mem_leftJoin (r := db.employee) (p := empCond) hd
  refine ⟨{ department_id := d.department_id
            department_name := d.department_name
            location := d.location
            employee_count := ((deptJoinRows db).filter (fun r =>
              decide (deptKey r = (d.department_id, d.department_name, d.location)))).countP
              (fun r => r.2.isSome) }, ?_, rfl, rfl, rfl, hz⟩
  rw [get_all_departments, List.mem_insertionSort]
  exact List.mem_map.mpr ⟨(d.department_id, d.department_name, d.location),
    (mem_groupKeys deptKey (deptJoinRows db)).mpr ⟨(d, ob), hob, rfl⟩, rfl⟩

/-- Witness for C6 at `wdb2`: department 2 has no employees and appears
with employee count zero. -/
theorem departments_zero_count_witness :
    ((⟨2, "H", "M"⟩ : Department) ∈ wdb2.department ∧
      (∀ e ∈ wdb2.employee, e.department_id ≠ some 2)) ∧
    ∃ row ∈ get_all_departments wdb2,
      row.department_id = 2 ∧ row.department_name = "H" ∧
      row.location = "M" ∧ row.employee_count = 0 :=
  ⟨⟨by decide, by decide⟩,
    departments_zero_count wdb2 ⟨2, "H", "M"⟩ (by decide) (by decide)⟩

/-- Claim C3: the salary roster is sorted non-increasing by total
compensation, and the sort is stable: tagging each pre-sort row with its
input position, a row placed before another is either strictly greater in
total compensation or tied and earlier in the input, so ties preserve
their input order; the roster is a pure function of the database, hence
identical across repeated calls on unchanged data. -/
theorem list_salaries_sorted_stable (db : DB) :
    (get_all_salaries db).Sorted salOrd ∧
    get_all_salaries db = (get_all_salaries_idx db).map Prod.snd ∧
    (get_all_salaries_idx db).Pairwise (fun x y =>
      y.2.total_compensation < x.2.total_compensation ∨
        (x.2.total_compensation = y.2.total_compensation ∧ x.1 < y.1)) := by
  refine ⟨List.sorted_insertionSort salOrd _, ?_, ?_⟩
  · unfold get_all_salaries get_all_salaries_idx
    rw [List.map_insertionSort salOrdIdx salOrd Prod.snd (salaryJoinRows db).enum
      (fun a _ b _ => Iff.rfl), List.enum_map_snd]
  · refine List.Pairwise.imp ?_ (insertionSort_pairwise_stable (r := salOrdIdx)
      (p := fun x y => x.1 < y.1) (pairwise_fst_lt_enum (salaryJoinRows db)))
    intro a b h
    obtain ⟨hle, hor⟩ := h
    rcases hor with hn | hlt
    · exact Or.inl (lt_of_le_not_le hle hn)
    · by_cases hab : a.2.total_compensation ≤ b.2.total_compensation
      · exact Or.inr ⟨le_antisymm hab hle, hlt⟩
      · exact Or.inl (lt_of_le_not_le hle hab)

/-- Claim C8: the department roster is sorted non-increasing by employee
count, and when the department table is stored in ascending id order the
rows with equal counts appear in ascending department-id order — a fixed,
deterministic tie order, identical across runs on unchanged data. -/
theorem list_departments_ordered (db : DB) :
    (get_all_departments db).Sorted deptOrd ∧
    (db.department.Pairwise (fun d1 d2 => d1.department_id < d2.department_id) →
      (get_all_departments db).Pairwise (fun x y =>
        y.employee_count < x.employee_count ∨
          (x.employee_count = y.employee_count ∧ x.department_id < y.department_id))) := by
  refine ⟨List.sorted_insertionSort deptOrd _, ?_⟩
  intro hdep
  have h1 : (deptJoinRows db).Pairwise
      (fun x y => x.1 = y.1 ∨ x.1.department_id < y.1.department_id) :=
    pairwise_leftJoin db.employee empCond hdep
  have h2 : (deptJoinRows db).Pairwise
      (fun x y => deptKey x = deptKey y ∨ (deptKey x).1 < (deptKey y).1) :=
    h1.imp (fun h => h.imp
      (fun he => congrArg (fun a => (a.department_id, a.department_name, a.location)) he)
      (fun hlt => hlt))
  have h3 : (groupKeys deptKey (deptJoinRows db)).Pairwise (fun k1 k2 => k1.1 < k2.1) :=
    pairwise_groupKeys deptKey (deptJoinRows db) h2
  refine List.Pairwise.imp ?_ (insertionSort_pairwise_stable (r := deptOrd)
    (p := fun x y => x.department_id < y.department_id) (List.pairwise_map.mpr h3))
  intro a b h
  obtain ⟨hle, hor⟩ := h
  rcases hor with hn | hlt
  · exact Or.inl (lt_of_le_not_le hle hn)
  · by_cases hab : a.employee_count ≤ b.employee_count
    · exact Or.inr ⟨le_antisymm hab hle, hlt⟩
    · exact Or.inl (lt_of_le_not_le hle hab)

/-- Witness for C8 at `wdb8`: ids ascend, departments 1 and 3 tie at count
zero and appear in id order after department 2. -/
theorem list_departments_ordered_witness :
    wdb8.department.Pairwise (fun d1 d2 => d1.department_id < d2.department_id) ∧
    (get_all_departments wdb8).Pairwise (fun x y =>
      y.employee_count < x.employee_count ∨
        (x.employee_count = y.employee_count ∧ x.department_id < y.department_id)) :=
  ⟨by decide, (list_departments_ordered wdb8).2 (by decide)⟩

/-- Claim C10: in a department where some employees own salary rows and
others own none, the four aggregates are computed over exactly the salary
rows that exist — null contributions of salary-less employees are skipped
— and all four are defined whenever at least one salary row is reachable
from the department. -/
theorem dept_stats_skip_missing (db : DB) (d : Department)
    (hnames : (db.department.map Department.department_name).Nodup)
    (hd : d ∈ db.department)
    (hcs : compsOf db d ≠ []) :
    ∃ row ∈ get_department_salary_stats db,
      row.department_name = d.department_name ∧
      row.avg_total_compensation =
        some (round2 ((compsOf db d).sum / ((compsOf db d).length : ℚ))) ∧
      row.total_compensation = some (round2 (compsOf db d).sum) ∧
      row.min_compensation = ((compsOf db d).min?).map round2 ∧
      row.max_compensation = ((compsOf db d).max?).map round2 ∧
      row.avg_total_compensation.isSome = true ∧
      row.total_compensation.isSome = true ∧
      row.min_compensation.isSome = true ∧
      row.max_compensation.isSome = true := by
  have hc := statsGroup_comps db d hnames hd
  have hne : (compsOf db d).isEmpty = false := List.isEmpty_eq_false.mpr hcs
  obtain ⟨m, hm⟩ : ∃ m, (compsOf db d).min? = some m := by
    cases hmin : (compsOf db d).min? with
    | none => exact absurd (List.min?_eq_none_iff.mp hmin) hcs
    | some m => exact ⟨m, rfl⟩
  obtain ⟨mx, hmx⟩ : ∃ mx, (compsOf db d).max? = some mx := by
    cases hmax : (compsOf db d).max? with
    | none => exact absurd (List.max?_eq_none_iff.mp hmax) hcs
    | some mx => exact ⟨mx, rfl⟩
  refine ⟨statsRow db d.department_name, statsRow_mem db hd, rfl,
    ?_, ?_, ?_, ?_, ?_, ?_, ?_, ?_⟩
  · show aggAvg (comps (statsGroup db d.department_name)) = _
    rw [hc]
    simp [aggAvg, hne]
  · show aggSum (comps (statsGroup db d.department_name)) = _
    rw [hc]
    simp [aggSum, hne]
  · show aggMin (comps (statsGroup db d.department_name)) = _
    rw [hc]
    rfl
  · show aggMax (comps (statsGroup db d.department_name)) = _
    rw [hc]
    rfl
  · show (aggAvg (comps (statsGroup db d.department_name))).isSome = true
    rw [hc]
    simp [aggAvg, hne]
  · show (aggSum (comps (statsGroup db d.department_name))).isSome = true
    rw [hc]
    simp [aggSum, hne]
  · show (aggMin (comps (statsGroup db d.department_name))).isSome = true
    rw [hc]
    simp [aggMin, hm]
  · show (aggMax (comps (statsGroup db d.department_name))).isSome = true
    rw [hc]
    simp [aggMax, hmx]

/-- Witness for C10 at `wdb4`: employee 1 owns two salary rows, employee 2
owns none; the aggregates are defined and range over the two existing
rows. -/
theorem dept_stats_skip_missing_witness :
    ((wdb4.department.map Department.department_name).Nodup ∧
      (⟨1, "E", "L"⟩ : Department) ∈ wdb4.department ∧
      compsOf wdb4 ⟨1, "E", "L"⟩ ≠ [] ∧
      (salsOf wdb4 ⟨2, "C", "D", "c", "i", some 1⟩).length = 0) ∧
    ∃ row ∈ get_department_salary_stats wdb4,
      row.department_name = (⟨1, "E", "L"⟩ : Department).department_name ∧
      row.avg_total_compensation =
        some (round2 ((compsOf wdb4 ⟨1, "E", "L"⟩).sum /
          ((compsOf wdb4 ⟨1, "E", "L"⟩).length : ℚ))) ∧
      row.total_compensation = some (round2 (compsOf wdb4 ⟨1, "E", "L"⟩).sum) ∧
      row.min_compensation = ((compsOf wdb4 ⟨1, "E", "L"⟩).min?).map round2 ∧
      row.max_compensation = ((compsOf wdb4 ⟨1, "E", "L"⟩).max?).map round2 ∧
      row.avg_total_compensation.isSome = true ∧
      row.total_compensation.isSome = true ∧
      row.min_compensation.isSome = true ∧
      row.max_compensation.isSome = true :=
  ⟨⟨by decide, by decide, by decide, by decide⟩,
    dept_stats_skip_missing wdb4 ⟨1, "E", "L"⟩ (by decide) (by decide) (by decide)⟩

end EMS
